import Mathlib

/-!
Verification development for a repository-discovery system: data-collection
scripts that query a code-hosting API and upsert repository metadata into a
uniquely-keyed PostgreSQL table, plus a dashboard with a paginated,
sortable, searchable repository list and a CSV export.

The definitions below are shallow embeddings of the TypeScript sources
(packages/scripts/src/common.ts, fetch-dependents-api.ts,
scrape-dependents.ts, packages/nextjs/app/api/repositories/export and list
routes) and of the relevant fragment of PostgreSQL semantics (INSERT ... ON
CONFLICT DO UPDATE against a UNIQUE column, ILIKE pattern matching, ORDER
BY / LIMIT / OFFSET).  HTTP traffic is modelled by an oracle: the list of
successive responses the server would return for the successive fetches a
function performs.
-/

/-- Row of the `repositories` table (database/repositories.sql).  `id` is the
SERIAL primary key; `full_name` carries a UNIQUE constraint; all columns
other than `id`, `full_name`, `name`, `owner`, `url` are nullable, which the
embedding renders as `Option`. -/
structure Repository where
  id : Nat
  full_name : String
  name : String
  owner : String
  url : String
  homepage : Option String
  stars : Option Int
  forks : Option Int
  created_at : Option String
  updated_at : Option String
  last_seen : Option String
  saved_at : Option String
  source : Option (List String)
deriving Repr, DecidableEq

/-- Record assembled by the collection scripts (interface RepositoryData in
common.ts). -/
structure RepositoryData where
  full_name : String
  name : String
  owner : String
  url : String
  homepage : Option String
  stars : Int
  forks : Int
  created_at : String
  updated_at : String
  source : List String
deriving Repr, DecidableEq

/-- Value bound for the homepage parameter: the script passes
`repo.homepage || null`, so a missing homepage and the JavaScript-falsy
empty string both become SQL NULL. -/
def jsFalsyToNull (v : Option String) : Option String :=
  match v with
  | some s => if s == "" then none else some s
  | none => none

/-- Value stored in `source` by the ON CONFLICT branch:
`ARRAY(SELECT DISTINCT unnest(repositories.source || EXCLUDED.source))`.
PostgreSQL array concatenation treats a NULL operand as empty, and SELECT
DISTINCT returns the distinct elements in an unspecified order; `dedup` is
one concrete realization of that order. -/
def distinctConcat (old : Option (List String)) (incoming : List String) : List String :=
  ((old.getD []) ++ incoming).dedup

/-- Effect of the DO UPDATE branch of upsertRepository on the conflicting
row: only stars, forks, updated_at, homepage, source and last_seen are
assigned. -/
def updateOnConflict (repo : RepositoryData) (now : String) (r : Repository) : Repository :=
  { r with
    stars := some repo.stars
    forks := some repo.forks
    updated_at := some repo.updated_at
    homepage := jsFalsyToNull repo.homepage
    source := some (distinctConcat r.source repo.source)
    last_seen := some now }

/-- Row created by the INSERT branch of upsertRepository.  `newId` stands
for the value drawn from the SERIAL sequence and `now` for NOW(); `saved_at`
and `last_seen` both default to the current timestamp. -/
def insertRow (repo : RepositoryData) (newId : Nat) (now : String) : Repository :=
  { id := newId
    full_name := repo.full_name
    name := repo.name
    owner := repo.owner
    url := repo.url
    homepage := jsFalsyToNull repo.homepage
    stars := some repo.stars
    forks := some repo.forks
    created_at := some repo.created_at
    updated_at := some repo.updated_at
    last_seen := some now
    saved_at := some now
    source := some repo.source }

/-- upsertRepository (common.ts): INSERT ... ON CONFLICT (full_name) DO
UPDATE against the table state.  When some row carries the incoming
full_name the conflicting row is updated in place, otherwise a fresh row is
appended. -/
def upsertRepository (tbl : List Repository) (repo : RepositoryData) (newId : Nat)
    (now : String) : List Repository :=
  if tbl.any (fun r => r.full_name == repo.full_name) then
    tbl.map (fun r => if r.full_name == repo.full_name then updateOnConflict repo now r else r)
  else
    tbl ++ [insertRow repo newId now]

/-- One HTTP response as seen by a collection script: its status code, the
value of the x-ratelimit-reset header when present, the current Unix time
(seconds) at which the script handles the response, and the response body. -/
structure ApiResponse where
  status : Nat
  ratelimitReset : Option Int
  nowSec : Int
  body : String
deriving Repr, DecidableEq

/-- res.ok of the Fetch API: status in the 2xx range. -/
def statusOk (status : Nat) : Bool :=
  200 ≤ status && status < 300

/-- waitMs of the 403 branches: `reset ? (parseInt(reset, 10) - nowSec + 2) * 1000
: 30_000`. -/
def rateLimitWaitMs (reset : Option Int) (nowSec : Int) : Int :=
  match reset with
  | some r => (r - nowSec + 2) * 1000
  | none => 30000

/-- Duration actually slept before a retry: `delay(Math.max(waitMs, 5000))`. -/
def backoffSleepMs (resp : ApiResponse) : Int :=
  max (rateLimitWaitMs resp.ratelimitReset resp.nowSec) 5000

/-- Outcome of searchCodeOnce: the parsed body on success, a thrown
`Search API error` for a non-2xx non-403 status, or exhaustion of the
response oracle (the code would still be retrying). -/
inductive SearchOutcome where
  | success (body : String)
  | apiError (status : Nat) (text : String)
  | outOfResponses
deriving Repr, DecidableEq

/-- searchCodeOnce (fetch-dependents-api.ts): on 403 it sleeps and re-issues
the same request (same q and page, consuming the next oracle response); on
any other non-2xx status it throws; on 2xx it returns the body.  The first
component collects the sleep durations performed. -/
def searchCodeOnce (q : String) (page : Nat) : List ApiResponse → List Int × SearchOutcome
  | [] => ([], SearchOutcome.outOfResponses)
  | resp :: rest =>
    if resp.status == 403 then
      let next := searchCodeOnce q page rest
      (backoffSleepMs resp :: next.1, next.2)
    else if statusOk resp.status then
      ([], SearchOutcome.success resp.body)
    else
      ([], SearchOutcome.apiError resp.status resp.body)

/-- Outcome of fetchRepoMeta: the parsed body, null for a non-2xx non-403
status, or exhaustion of the response oracle. -/
inductive MetaOutcome where
  | meta (body : String)
  | nullResult
  | outOfResponses
deriving Repr, DecidableEq

/-- fetchRepoMeta (common.ts and fetch-dependents-api.ts): on 403 it sleeps
and re-issues the same request; on any other non-2xx status it returns null;
on 2xx it returns the body.  The first component collects the sleep
durations performed. -/
def fetchRepoMeta (fullName : String) : List ApiResponse → List Int × MetaOutcome
  | [] => ([], MetaOutcome.outOfResponses)
  | resp :: rest =>
    if resp.status == 403 then
      let next := fetchRepoMeta fullName rest
      (backoffSleepMs resp :: next.1, next.2)
    else if statusOk resp.status then
      ([], MetaOutcome.meta resp.body)
    else
      ([], MetaOutcome.nullResult)

/-- Insertion into a JavaScript Set: a no-op when the element is already
present, otherwise the element is appended (JS Sets preserve insertion
order). -/
def jsSetAdd (s : List String) (x : String) : List String :=
  if x ∈ s then s else s ++ [x]

/-- Inner loop of searchRepositories (fetch-dependents-api.ts lines
111-114): for each item of a result page, `repoFullNames.add(repo)` when the
item carries a string full_name. -/
def collectPageItems (acc : List String) (items : List (Option String)) : List String :=
  items.foldl
    (fun a it =>
      match it with
      | some repo => jsSetAdd a repo
      | none => a)
    acc

/-- searchRepositories (fetch-dependents-api.ts): every result page produced
by the term/file/path-shard/page loops feeds its items into the single
`repoFullNames` set; `pages` is the list of those item lists in the order
the queries returned them, and the result is `Array.from(repoFullNames)`. -/
def searchRepositoriesCollect (pages : List (List (Option String))) : List String :=
  pages.foldl collectPageItems []

/-- `Array.from(new Set(results))` (scrape-dependents.ts line 116). -/
def jsSetFrom (results : List String) : List String :=
  results.foldl jsSetAdd []

/-- One iteration of the Puppeteer pagination loop (scrape-dependents.ts):
look up the next-page link of the current page; stop when there is none or
when the URL was already visited; otherwise record it as visited and
navigate to it. -/
def scrapeStep (nextHref : String → Option String) (current : String)
    (visited : List String) : Option (String × List String) :=
  match nextHref current with
  | none => none
  | some u => if u ∈ visited then none else some (u, visited ++ [u])

/-- The scraping loop itself, driven by fuel; `none` means the fuel ran out
before the loop stopped, `some visited` returns the visited-URL set (in
insertion order, which is exactly the sequence of URLs navigated to). -/
def scrapeVisit (nextHref : String → Option String) :
    Nat → String → List String → Option (List String)
  | 0, _, _ => none
  | fuel + 1, current, visited =>
    match scrapeStep nextHref current visited with
    | none => some visited
    | some (u, visited2) => scrapeVisit nextHref fuel u visited2

/-- Whole pagination run: the loop starts on the base URL with
`visitedUrls = \x7b baseUrl \x7d` (the script adds the initial URL before the
loop). -/
def scrapeDependents (nextHref : String → Option String) (baseUrl : String)
    (fuel : Nat) : Option (List String) :=
  scrapeVisit nextHref fuel baseUrl [baseUrl]

/-- allowedSortFields of the repository-list route. -/
def allowedSortFields : List String :=
  ["id", "stars", "forks", "name", "owner", "created_at", "updated_at", "last_seen"]

/-- validSortBy: the requested column when allowlisted, id otherwise. -/
def validSortBy (sortBy : String) : String :=
  if allowedSortFields.contains sortBy then sortBy else "id"

/-- Characters of a string lowered one by one (JavaScript toLowerCase /
PostgreSQL lower, restricted to the simple case mapping). -/
def lowerChars (s : String) : List Char :=
  s.toList.map Char.toLower

/-- String rebuilt from its lowered characters. -/
def lowerStr (s : String) : String :=
  String.mk (lowerChars s)

/-- validSortOrder: ASC exactly when the requested order lowercases to asc,
DESC otherwise. -/
def validSortOrder (sortOrder : String) : String :=
  if lowerStr sortOrder == "asc" then "ASC" else "DESC"

/-- Value bound as a query parameter ($1, $2, ...). -/
inductive SqlValue where
  | str (s : String)
  | int (n : Int)
deriving Repr, DecidableEq

/-- Query as handed to the driver: SQL text plus bound parameters. -/
structure SqlQuery where
  text : String
  params : List SqlValue
deriving Repr, DecidableEq

/-- Column list shared by both branches of the list route (whitespace
normalized). -/
def repoSelectColumns : String :=
  "SELECT id, full_name, name, owner, url, homepage, stars, forks, created_at, updated_at, last_seen, saved_at, source FROM repositories"

/-- WHERE clause used when a search term is present. -/
def searchWhereClause : String :=
  "WHERE (full_name ILIKE $1 OR name ILIKE $1 OR owner ILIKE $1)"

/-- SQL text of repositoriesQuery: the sort column and direction are
interpolated into the text, the search pattern, limit and offset are
referenced as $1/$2/$3 (or $1/$2 without search). -/
def repositoriesQueryText (sortColumn sortDirection : String) (hasSearch : Bool) : String :=
  if hasSearch then
    repoSelectColumns ++ " " ++ searchWhereClause ++ " ORDER BY " ++ sortColumn ++ " "
      ++ sortDirection ++ " NULLS LAST LIMIT $2 OFFSET $3"
  else
    repoSelectColumns ++ " ORDER BY " ++ sortColumn ++ " " ++ sortDirection
      ++ " NULLS LAST LIMIT $1 OFFSET $2"

/-- repositoriesQuery construction in the list route GET handler:
`offset = (page - 1) * limit`; with a (JavaScript-truthy, i.e. non-empty)
search term the pattern `%search%`, the limit and the offset are bound as
parameters; without one only limit and offset are bound. -/
def buildRepositoriesQuery (page limit : Int) (sortBy sortOrder search : String) : SqlQuery :=
  let offset := (page - 1) * limit
  if search == "" then
    { text := repositoriesQueryText (validSortBy sortBy) (validSortOrder sortOrder) false
      params := [SqlValue.int limit, SqlValue.int offset] }
  else
    { text := repositoriesQueryText (validSortBy sortBy) (validSortOrder sortOrder) true
      params := [SqlValue.str ("%" ++ search ++ "%"), SqlValue.int limit, SqlValue.int offset] }

/-- Tokens of a PostgreSQL LIKE pattern after escape processing. -/
inductive LikeTok where
  | percent
  | underscore
  | lit (c : Char)
deriving Repr, DecidableEq

/-- Escape-processing pass of PostgreSQL LIKE patterns: percent and
underscore become wildcard tokens, a backslash turns the following
character into a literal (the flag records an unconsumed backslash), every
other character is a literal.  A trailing lone backslash is dropped;
PostgreSQL raises an error there, and the patterns this development builds
never end in an escape. -/
def likeTokens : Bool → List Char → List LikeTok
  | _, [] => []
  | true, c :: p => LikeTok.lit c :: likeTokens false p
  | false, c :: p =>
    if c = '%' then LikeTok.percent :: likeTokens false p
    else if c = '_' then LikeTok.underscore :: likeTokens false p
    else if c = '\\' then likeTokens true p
    else LikeTok.lit c :: likeTokens false p

/-- PostgreSQL LIKE matching over the token list: percent matches any
sequence (the rest of the pattern must match some suffix of the subject),
underscore matches exactly one character, a literal matches itself. -/
def likeMatchT : List LikeTok → List Char → Bool
  | [], s => s.isEmpty
  | LikeTok.percent :: p, s => s.tails.any (fun t => likeMatchT p t)
  | LikeTok.underscore :: _, [] => false
  | LikeTok.underscore :: p, _ :: s2 => likeMatchT p s2
  | LikeTok.lit _ :: _, [] => false
  | LikeTok.lit c :: p, d :: s2 => c == d && likeMatchT p s2

/-- PostgreSQL LIKE pattern matching over character lists. -/
def likeMatch (p s : List Char) : Bool :=
  likeMatchT (likeTokens false p) s

/-- ILIKE pattern the route builds for a search term: percent signs wrapped
around the raw term. -/
def ilikePattern (search : String) : List Char :=
  '%' :: (lowerChars search ++ ['%'])

/-- WHERE condition of the list route for one row:
full_name ILIKE $1 OR name ILIKE $1 OR owner ILIKE $1. -/
def matchesSearch (search : String) (r : Repository) : Bool :=
  likeMatch (ilikePattern search) (lowerChars r.full_name)
    || likeMatch (ilikePattern search) (lowerChars r.name)
    || likeMatch (ilikePattern search) (lowerChars r.owner)

/-- Matching as the specification words it: all rows when the term is empty,
otherwise a case-insensitive substring of full_name, name or owner.  This
definition follows the claim text and is compared against the code-derived
`matchesSearch`. -/
def searchSpecMatches (search : String) (r : Repository) : Bool :=
  search == ""
    || decide (lowerChars search <:+: lowerChars r.full_name)
    || decide (lowerChars search <:+: lowerChars r.name)
    || decide (lowerChars search <:+: lowerChars r.owner)

/-- Character lists containing no LIKE wildcard or escape character. -/
def cleanChars (p : List Char) : Bool :=
  p.all (fun c => !(c == '%' || c == '_' || c == '\\'))

/-- Search terms containing no LIKE wildcard or escape character. -/
def cleanSearch (search : String) : Bool :=
  cleanChars (lowerChars search)

/-- Pagination block of the list response. -/
structure Pagination where
  currentPage : Nat
  totalPages : Nat
  totalCount : Nat
  limit : Nat
  hasNext : Bool
  hasPrev : Bool
deriving Repr, DecidableEq

/-- Body of the list response. -/
structure ListResponse where
  repositories : List Repository
  pagination : Pagination
  sortBy : String
  sortOrder : String
  search : String
deriving Repr, DecidableEq

/-- GET handler of the repository-list route over a table state.  `orderLe`
stands for the row order the database realizes for the ORDER BY clause; the
count query counts the rows matching the WHERE clause, the data query sorts
them and applies LIMIT/OFFSET, and the pagination block is computed as in
the route (`Math.ceil(totalCount / limit)` is ceiling division for a
positive limit). -/
def listGET (tbl : List Repository) (orderLe : Repository → Repository → Bool)
    (page limit : Nat) (sortBy sortOrder search : String) : ListResponse :=
  let offset := (page - 1) * limit
  let matching := if search == "" then tbl else tbl.filter (matchesSearch search)
  let totalCount := matching.length
  let rows := ((matching.mergeSort orderLe).drop offset).take limit
  let totalPages := (totalCount + limit - 1) / limit
  { repositories := rows
    pagination :=
      { currentPage := page
        totalPages := totalPages
        totalCount := totalCount
        limit := limit
        hasNext := decide (page < totalPages)
        hasPrev := decide (1 < page) }
    sortBy := validSortBy sortBy
    sortOrder := lowerStr (validSortOrder sortOrder)
    search := search }

/-- Header cells of the CSV export. -/
def exportHeaders : List String :=
  ["ID", "Full Name", "Name", "Owner", "URL", "Homepage", "Stars", "Forks",
   "Created At", "Updated At", "Last Seen", "Saved At", "Source"]

/-- Field wrapped in double quotes, as the export does for text columns. -/
def quoteField (s : String) : String :=
  "\"" ++ s ++ "\""

/-- JavaScript `value || ""` on a nullable string column. -/
def jsStringOrEmpty (v : Option String) : String :=
  match v with
  | some s => s
  | none => ""

/-- JavaScript `value || 0` on a nullable integer column. -/
def jsIntOrZero (v : Option Int) : Int :=
  match v with
  | some n => n
  | none => 0

/-- One data line of the CSV export (export route lines 45-61): thirteen
cells joined with commas; homepage is quoted only when truthy, the source
array is joined with a semicolon and a space. -/
def csvLine (r : Repository) : String :=
  String.intercalate ","
    [ toString r.id
    , quoteField r.full_name
    , quoteField r.name
    , quoteField r.owner
    , quoteField r.url
    , (match r.homepage with
       | some h => if h == "" then "" else quoteField h
       | none => "")
    , toString (jsIntOrZero r.stars)
    , toString (jsIntOrZero r.forks)
    , jsStringOrEmpty r.created_at
    , jsStringOrEmpty r.updated_at
    , jsStringOrEmpty r.last_seen
    , jsStringOrEmpty r.saved_at
    , quoteField (String.intercalate "; " (r.source.getD [])) ]

/-- ORDER BY id of the export query. -/
def sortById (tbl : List Repository) : List Repository :=
  tbl.mergeSort (fun a b => a.id ≤ b.id)

/-- CSV content: the header line followed by one line per row, joined with
newlines. -/
def exportCsvBody (tbl : List Repository) : String :=
  String.intercalate "\n" (String.intercalate "," exportHeaders :: (sortById tbl).map csvLine)

/-- HTTP response of the export route. -/
structure HttpResult where
  status : Nat
  contentType : String
  body : String
deriving Repr, DecidableEq

/-- GET handler of the CSV export route: on a successful query it returns
200 with text/csv content over the id-ordered table; when the database
query fails it returns 500 with a JSON error body. -/
def exportGET (db : Except String (List Repository)) : HttpResult :=
  match db with
  | Except.ok tbl =>
    { status := 200
      contentType := "text/csv"
      body := exportCsvBody tbl }
  | Except.error details =>
    { status := 500
      contentType := "application/json"
      body := "\x7b\"error\":\"Failed to export repositories\",\"details\":\"" ++ details
        ++ "\"\x7d" }

/-- Sample table row used to exercise the theorems on concrete inputs. -/
def sampleRow : Repository :=
  { id := 1
    full_name := "scaffold-eth/se-2"
    name := "se-2"
    owner := "scaffold-eth"
    url := "https://github.com/scaffold-eth/se-2"
    homepage := none
    stars := some 100
    forks := some 20
    created_at := some "2023-01-01"
    updated_at := some "2024-01-01"
    last_seen := some "2024-02-01"
    saved_at := some "2023-06-01"
    source := some ["scrape-dependents"] }

/-- Sample incoming record carrying the same full_name as `sampleRow` but
different name, owner, url and created_at values. -/
def sampleRecord : RepositoryData :=
  { full_name := "scaffold-eth/se-2"
    name := "renamed"
    owner := "someone-else"
    url := "https://example.com"
    homepage := some "https://home.example"
    stars := 150
    forks := 30
    created_at := "2020-12-31"
    updated_at := "2024-03-01"
    source := ["initial-commit", "scrape-dependents"] }

/-- Incoming record whose own source array already holds a duplicate. -/
def dupSourceRecord : RepositoryData :=
  { full_name := "o/r"
    name := "r"
    owner := "o"
    url := "u"
    homepage := none
    stars := 1
    forks := 0
    created_at := "c"
    updated_at := "u2"
    source := ["a", "a"] }

/-- Rate-limited response carrying status 429. -/
def resp429 : ApiResponse :=
  { status := 429, ratelimitReset := some 100, nowSec := 0, body := "rate limited" }

/-- Rate-limited response carrying status 403. -/
def resp403 : ApiResponse :=
  { status := 403, ratelimitReset := some 50, nowSec := 10, body := "forbidden" }

/-- Successful response. -/
def resp200 : ApiResponse :=
  { status := 200, ratelimitReset := none, nowSec := 0, body := "items" }

/-- Row whose full_name contains the letters a, x, b, used against the
wildcard search term. -/
def wildcardRow : Repository :=
  { id := 1
    full_name := "axb"
    name := "z"
    owner := "z"
    url := "u"
    homepage := none
    stars := none
    forks := none
    created_at := none
    updated_at := none
    last_seen := none
    saved_at := none
    source := none }

/-! ## Upsert: key uniqueness, frame and source deduplication (C1, C9, C10) -/

/-- Full-name column of the table after an upsert: unchanged on conflict,
extended by the incoming full_name otherwise. -/
theorem upsertRepository_map_full_name (tbl : List Repository) (repo : RepositoryData)
    (newId : Nat) (now : String) :
    (upsertRepository tbl repo newId now).map Repository.full_name =
      if tbl.any (fun r => r.full_name == repo.full_name) then
        tbl.map Repository.full_name
      else
        tbl.map Repository.full_name ++ [repo.full_name] := by
  unfold upsertRepository
  split
  · rw [List.map_map]
    apply List.map_congr_left
    intro r _
    by_cases h : r.full_name == repo.full_name
    · simp [h, updateOnConflict, Function.comp]
    · simp [h, Function.comp]
  · simp [insertRow]

/-- One upsert preserves distinctness of the full_name column. -/
theorem upsertRepository_nodup_full_names (tbl : List Repository) (repo : RepositoryData)
    (newId : Nat) (now : String) (h : (tbl.map Repository.full_name).Nodup) :
    ((upsertRepository tbl repo newId now).map Repository.full_name).Nodup := by
  rw [upsertRepository_map_full_name]
  split
  · exact h
  · rename_i hany
    have hnotin : repo.full_name ∉ tbl.map Repository.full_name := by
      simp only [List.any_eq_true, beq_iff_eq] at hany
      simp only [List.mem_map]
      rintro ⟨r, hr, heq⟩
      exact hany ⟨r, hr, heq⟩
    simp [List.nodup_append, h, hnotin]

/-- Any sequence of upserts preserves distinctness of the full_name column. -/
theorem foldl_upsert_nodup (ops : List (RepositoryData × Nat × String)) :
    ∀ tbl : List Repository, (tbl.map Repository.full_name).Nodup →
      ((ops.foldl (fun t op => upsertRepository t op.1 op.2.1 op.2.2) tbl).map
        Repository.full_name).Nodup := by
  induction ops with
  | nil => intro tbl h; simpa using h
  | cons op rest ih =>
    intro tbl h
    exact ih _ (upsertRepository_nodup_full_names tbl op.1 op.2.1 op.2.2 h)

/-- C1: when a row with the incoming full_name already exists,
upsertRepository updates that row in place (same length, same full_name
column, the table becomes the row-wise conditional update), and after any
sequence of upserts a table whose full_name column was duplicate-free never
contains two rows with the same full_name. -/
theorem upsertRepository_unique_full_names
    (tbl : List Repository) (repo : RepositoryData) (newId : Nat) (now : String)
    (ops : List (RepositoryData × Nat × String))
    (hnd : (tbl.map Repository.full_name).Nodup)
    (hconf : tbl.any (fun r => r.full_name == repo.full_name) = true) :
    ((upsertRepository tbl repo newId now).length = tbl.length
      ∧ (upsertRepository tbl repo newId now).map Repository.full_name
          = tbl.map Repository.full_name
      ∧ upsertRepository tbl repo newId now
          = tbl.map (fun r =>
              if r.full_name == repo.full_name then updateOnConflict repo now r else r))
    ∧ ((ops.foldl (fun t op => upsertRepository t op.1 op.2.1 op.2.2) tbl).map
        Repository.full_name).Nodup := by
  refine ⟨⟨?_, ?_, ?_⟩, foldl_upsert_nodup ops tbl hnd⟩
  · unfold upsertRepository
    rw [if_pos hconf]
    simp
  · rw [upsertRepository_map_full_name, if_pos hconf]
  · unfold upsertRepository
    rw [if_pos hconf]

/-- Witness for C1 at a concrete table, record and upsert sequence. -/
theorem upsertRepository_unique_full_names_witness :
    (([sampleRow].map Repository.full_name).Nodup
      ∧ [sampleRow].any (fun r => r.full_name == sampleRecord.full_name) = true)
    ∧ (((upsertRepository [sampleRow] sampleRecord 2 "2024-04-01").length = [sampleRow].length
        ∧ (upsertRepository [sampleRow] sampleRecord 2 "2024-04-01").map Repository.full_name
            = [sampleRow].map Repository.full_name
        ∧ upsertRepository [sampleRow] sampleRecord 2 "2024-04-01"
            = [sampleRow].map (fun r =>
                if r.full_name == sampleRecord.full_name then
                  updateOnConflict sampleRecord "2024-04-01" r
                else r))
      ∧ (([(dupSourceRecord, 3, "t")].foldl
            (fun t op => upsertRepository t op.1 op.2.1 op.2.2) [sampleRow]).map
          Repository.full_name).Nodup) :=
  ⟨⟨by decide, by decide⟩,
    upsertRepository_unique_full_names [sampleRow] sampleRecord 2 "2024-04-01"
      [(dupSourceRecord, 3, "t")] (by decide) (by decide)⟩

/-- C9: on conflict, every column other than stars, forks, updated_at,
homepage, source and last_seen is left unchanged: the projection of the
table to (id, full_name, name, owner, url, created_at, saved_at) is the same
before and after the upsert, even though the incoming record carries
different name, owner, url and created_at values. -/
theorem upsertRepository_frame
    (tbl : List Repository) (repo : RepositoryData) (newId : Nat) (now : String)
    (hconf : tbl.any (fun r => r.full_name == repo.full_name) = true) :
    (upsertRepository tbl repo newId now).map
        (fun r => (r.id, r.full_name, r.name, r.owner, r.url, r.created_at, r.saved_at))
      = tbl.map
        (fun r => (r.id, r.full_name, r.name, r.owner, r.url, r.created_at, r.saved_at)) := by
  unfold upsertRepository
  rw [if_pos hconf, List.map_map]
  apply List.map_congr_left
  intro r _
  by_cases h : r.full_name == repo.full_name
  · simp [h, updateOnConflict, Function.comp]
  · simp [h, Function.comp]

/-- Witness for C9: the incoming record disagrees with the stored row on
name, owner, url and created_at, yet the projection is unchanged. -/
theorem upsertRepository_frame_witness :
    ([sampleRow].any (fun r => r.full_name == sampleRecord.full_name) = true)
    ∧ (upsertRepository [sampleRow] sampleRecord 2 "2024-04-01").map
        (fun r => (r.id, r.full_name, r.name, r.owner, r.url, r.created_at, r.saved_at))
      = [sampleRow].map
        (fun r => (r.id, r.full_name, r.name, r.owner, r.url, r.created_at, r.saved_at)) :=
  ⟨by decide, upsertRepository_frame [sampleRow] sampleRecord 2 "2024-04-01" (by decide)⟩

/-- C10 counterexample: an upsertRepository call that inserts (no existing
row) stores the incoming source array verbatim, so a record whose source
already holds a duplicate produces a row whose source array has a duplicate
entry; the claim "after any upsertRepository call the source array of the
affected row contains no duplicate entries" is false as stated. -/
theorem upsertRepository_insert_duplicate_source :
    (upsertRepository [] dupSourceRecord 1 "t").map (fun r => r.source) = [some ["a", "a"]]
      ∧ ¬ (["a", "a"] : List String).Nodup := by
  decide

/-- C10 amended: on conflict (a row with the incoming full_name exists),
the updated row's source array is duplicate-free and holds exactly the
union of the previous source values and the incoming ones. -/
theorem upsertRepository_conflict_source_dedup
    (tbl : List Repository) (repo : RepositoryData) (newId : Nat) (now : String)
    (hconf : tbl.any (fun r => r.full_name == repo.full_name) = true) :
    ∀ r2 ∈ upsertRepository tbl repo newId now, r2.full_name = repo.full_name →
      (r2.source.getD []).Nodup
        ∧ ∃ r ∈ tbl, r.full_name = repo.full_name
            ∧ ∀ x, x ∈ r2.source.getD [] ↔ (x ∈ r.source.getD [] ∨ x ∈ repo.source) := by
  unfold upsertRepository
  rw [if_pos hconf]
  intro r2 hr2 hname
  rw [List.mem_map] at hr2
  obtain ⟨r, hr, rfl⟩ := hr2
  by_cases h : r.full_name == repo.full_name
  · rw [if_pos h]
    refine ⟨?_, r, hr, by simpa using h, ?_⟩
    · simp [updateOnConflict, distinctConcat, List.nodup_dedup]
    · intro x
      simp [updateOnConflict, distinctConcat, List.mem_dedup, List.mem_append]
  · rw [if_neg h] at hname
    exact absurd hname (by simpa using h)

/-- Witness for C10's amended statement at a concrete conflicting upsert. -/
theorem upsertRepository_conflict_source_dedup_witness :
    ([sampleRow].any (fun r => r.full_name == sampleRecord.full_name) = true)
    ∧ ∀ r2 ∈ upsertRepository [sampleRow] sampleRecord 2 "2024-04-01",
        r2.full_name = sampleRecord.full_name →
          (r2.source.getD []).Nodup
            ∧ ∃ r ∈ [sampleRow], r.full_name = sampleRecord.full_name
                ∧ ∀ x, x ∈ r2.source.getD []
                    ↔ (x ∈ r.source.getD [] ∨ x ∈ sampleRecord.source) :=
  ⟨by decide,
    upsertRepository_conflict_source_dedup [sampleRow] sampleRecord 2 "2024-04-01" (by decide)⟩

/-! ## Rate-limit handling of the collection scripts (C2, C5) -/

/-- C2 counterexample: a 429 response is not retried by the cited
functions.  searchCodeOnce throws a Search API error and fetchRepoMeta
returns null, even though the very next response would have succeeded; only
status 403 triggers the backoff-and-retry path. -/
theorem searchCodeOnce_429_not_retried :
    (searchCodeOnce "q" 1 [resp429, resp200]).2 = SearchOutcome.apiError 429 "rate limited"
      ∧ (fetchRepoMeta "owner/repo" [resp429, resp200]).2 = MetaOutcome.nullResult := by
  decide

/-- C2 amended: only status 403 triggers the backoff-and-retry path.  A
call that returns a result got it from a 2xx response that followed a
(possibly empty) run of 403 responses, and on every 403 the same request is
re-issued against the remaining responses. -/
theorem searchCodeOnce_retries_only_403
    (q : String) (page : Nat) (rs : List ApiResponse) (body : String)
    (h : (searchCodeOnce q page rs).2 = SearchOutcome.success body) :
    (∃ k resp rest, (rs.take k).all (fun r => r.status == 403) = true
        ∧ rs.drop k = resp :: rest
        ∧ statusOk resp.status = true
        ∧ body = resp.body)
    ∧ ∀ resp rest, resp.status = 403 →
        (searchCodeOnce q page (resp :: rest)).2 = (searchCodeOnce q page rest).2
          ∧ (fetchRepoMeta q (resp :: rest)).2 = (fetchRepoMeta q rest).2 := by
  constructor
  · induction rs with
    | nil => simp [searchCodeOnce] at h
    | cons r rest ih =>
      by_cases h403 : r.status = 403
      · have h2 : (searchCodeOnce q page rest).2 = SearchOutcome.success body := by
          simpa [searchCodeOnce, h403] using h
        obtain ⟨k, resp, rest2, hall, hdrop, hok, hbody⟩ := ih h2
        exact ⟨k + 1, resp, rest2, by simp [hall, h403], by simpa using hdrop, hok, hbody⟩
      · by_cases hok : statusOk r.status
        · refine ⟨0, r, rest, by simp, rfl, hok, ?_⟩
          have hs : SearchOutcome.success r.body = SearchOutcome.success body := by
            simpa [searchCodeOnce, h403, hok] using h
          exact (SearchOutcome.success.injEq _ _ ▸ hs).symm
        · exfalso
          simp [searchCodeOnce, h403, hok] at h
  · intro resp rest h403
    exact ⟨by simp [searchCodeOnce, h403], by simp [fetchRepoMeta, h403]⟩

/-- Witness for C2's amended statement: one 403 then a success. -/
theorem searchCodeOnce_retries_only_403_witness :
    ((searchCodeOnce "q" 1 [resp403, resp200]).2 = SearchOutcome.success "items")
    ∧ ((∃ k resp rest,
          (([resp403, resp200].take k).all (fun r => r.status == 403)) = true
            ∧ [resp403, resp200].drop k = resp :: rest
            ∧ statusOk resp.status = true
            ∧ "items" = resp.body)
        ∧ ∀ resp rest, resp.status = 403 →
            (searchCodeOnce "q" 1 (resp :: rest)).2 = (searchCodeOnce "q" 1 rest).2
              ∧ (fetchRepoMeta "q" (resp :: rest)).2 = (fetchRepoMeta "q" rest).2) :=
  ⟨by decide, searchCodeOnce_retries_only_403 "q" 1 [resp403, resp200] "items" (by decide)⟩

/-- C5: on a 403 (rate-limited) response the script sleeps
max((reset - now + 2) * 1000, 5000) milliseconds — 30000 when the
x-ratelimit-reset header is absent — and then re-issues the same request;
both searchCodeOnce and fetchRepoMeta prepend exactly that duration to
their sleep trace and continue on the remaining responses. -/
theorem backoff_sleep_formula
    (q : String) (page : Nat) (fullName : String) (resp : ApiResponse)
    (rs : List ApiResponse) (h403 : resp.status = 403) :
    searchCodeOnce q page (resp :: rs)
        = (backoffSleepMs resp :: (searchCodeOnce q page rs).1, (searchCodeOnce q page rs).2)
    ∧ fetchRepoMeta fullName (resp :: rs)
        = (backoffSleepMs resp :: (fetchRepoMeta fullName rs).1, (fetchRepoMeta fullName rs).2)
    ∧ (∀ reset nowSec : Int, rateLimitWaitMs (some reset) nowSec = (reset - nowSec + 2) * 1000)
    ∧ (∀ nowSec : Int, rateLimitWaitMs none nowSec = 30000)
    ∧ backoffSleepMs resp = max (rateLimitWaitMs resp.ratelimitReset resp.nowSec) 5000
    ∧ (resp.ratelimitReset = none → backoffSleepMs resp = 30000) := by
  refine ⟨?_, ?_, fun _ _ => rfl, fun _ => rfl, rfl, ?_⟩
  · simp [searchCodeOnce, h403]
  · simp [fetchRepoMeta, h403]
  · intro hnone
    simp only [backoffSleepMs, rateLimitWaitMs, hnone]
    decide

/-- Witness for C5 at a concrete 403 response with reset header 50 and
current time 10. -/
theorem backoff_sleep_formula_witness :
    (resp403.status = 403)
    ∧ (searchCodeOnce "q" 1 [resp403, resp200]
          = (backoffSleepMs resp403 :: (searchCodeOnce "q" 1 [resp200]).1,
             (searchCodeOnce "q" 1 [resp200]).2)
        ∧ fetchRepoMeta "o/r" [resp403, resp200]
            = (backoffSleepMs resp403 :: (fetchRepoMeta "o/r" [resp200]).1,
               (fetchRepoMeta "o/r" [resp200]).2)
        ∧ (∀ reset nowSec : Int,
            rateLimitWaitMs (some reset) nowSec = (reset - nowSec + 2) * 1000)
        ∧ (∀ nowSec : Int, rateLimitWaitMs none nowSec = 30000)
        ∧ backoffSleepMs resp403 = max (rateLimitWaitMs resp403.ratelimitReset resp403.nowSec) 5000
        ∧ (resp403.ratelimitReset = none → backoffSleepMs resp403 = 30000)) :=
  ⟨by decide, backoff_sleep_formula "q" 1 "o/r" resp403 [resp200] (by decide)⟩

/-! ## Deduplication by full name (C6) and the pagination loop guard (C7) -/

/-- Adding to a JS Set preserves distinctness. -/
theorem jsSetAdd_nodup {s : List String} {x : String} (h : s.Nodup) :
    (jsSetAdd s x).Nodup := by
  unfold jsSetAdd
  split
  · exact h
  · rename_i hx
    simp [List.nodup_append, h, hx]

/-- Membership after adding to a JS Set. -/
theorem mem_jsSetAdd {s : List String} {x y : String} :
    y ∈ jsSetAdd s x ↔ y ∈ s ∨ y = x := by
  unfold jsSetAdd
  split
  · rename_i hx
    constructor
    · exact Or.inl
    · rintro (h | rfl)
      · exact h
      · exact hx
  · simp

/-- Feeding one result page into the accumulator preserves distinctness. -/
theorem collectPageItems_nodup (items : List (Option String)) :
    ∀ acc : List String, acc.Nodup → (collectPageItems acc items).Nodup := by
  induction items with
  | nil => intro acc h; exact h
  | cons it rest ih =>
    intro acc h
    cases it with
    | none => exact ih acc h
    | some repo => exact ih _ (jsSetAdd_nodup h)

/-- Folding jsSetAdd over any list preserves distinctness. -/
theorem foldl_jsSetAdd_nodup (l : List String) :
    ∀ acc : List String, acc.Nodup → (l.foldl jsSetAdd acc).Nodup := by
  induction l with
  | nil => intro acc h; exact h
  | cons x rest ih => intro acc h; exact ih _ (jsSetAdd_nodup h)

/-- Membership in a fold of jsSetAdd. -/
theorem mem_foldl_jsSetAdd (l : List String) :
    ∀ acc y, y ∈ l.foldl jsSetAdd acc ↔ y ∈ acc ∨ y ∈ l := by
  induction l with
  | nil => intro acc y; simp
  | cons x rest ih =>
    intro acc y
    simp only [List.foldl_cons, ih, mem_jsSetAdd, List.mem_cons]
    tauto

/-- C6: the repository list a collection run hands to enrichment and output
contains each full name at most once: both the searchRepositories
accumulation over all result pages and the Array.from(new Set(results))
dedup of the scraper are duplicate-free, and the latter keeps exactly the
names that were scraped. -/
theorem collection_results_nodup (pages : List (List (Option String)))
    (results : List String) :
    (searchRepositoriesCollect pages).Nodup
    ∧ (jsSetFrom results).Nodup
    ∧ ∀ x, x ∈ jsSetFrom results ↔ x ∈ results := by
  refine ⟨?_, foldl_jsSetAdd_nodup results [] (by simp), ?_⟩
  · unfold searchRepositoriesCollect
    have h : ∀ acc : List String, acc.Nodup → (pages.foldl collectPageItems acc).Nodup := by
      induction pages with
      | nil => intro acc h; exact h
      | cons pg rest ih => intro acc h; exact ih _ (collectPageItems_nodup pg acc h)
    exact h [] (by simp)
  · intro x
    unfold jsSetFrom
    rw [mem_foldl_jsSetAdd]
    simp

/-- Fewer elements than any duplicate-free sublist's superset: a
duplicate-free list contained in another list is at most as long. -/
theorem nodup_subset_length_le {l m : List String} (h : l.Nodup) (hs : l ⊆ m) :
    l.length ≤ m.length := by
  classical
  calc l.length = l.toFinset.card := (List.toFinset_card_of_nodup h).symm
  _ ≤ m.toFinset.card := Finset.card_le_card (fun x hx => by
      simp only [List.mem_toFinset] at hx ⊢
      exact hs hx)
  _ ≤ m.length := m.toFinset_card_le

/-- The visited list stays duplicate-free through the scraping loop. -/
theorem scrapeVisit_nodup (nextHref : String → Option String) :
    ∀ fuel current visited out, visited.Nodup →
      scrapeVisit nextHref fuel current visited = some out → out.Nodup := by
  intro fuel
  induction fuel with
  | zero =>
    intro current visited out h hrun
    simp [scrapeVisit] at hrun
  | succ fuel ih =>
    intro current visited out h hrun
    simp only [scrapeVisit] at hrun
    cases hstep : scrapeStep nextHref current visited with
    | none =>
      rw [hstep] at hrun
      cases hrun
      exact h
    | some p =>
      rw [hstep] at hrun
      obtain ⟨u, visited2⟩ := p
      unfold scrapeStep at hstep
      cases hnx : nextHref current with
      | none => rw [hnx] at hstep; cases hstep
      | some v =>
        rw [hnx] at hstep
        dsimp only at hstep
        by_cases hv : v ∈ visited
        · rw [if_pos hv] at hstep; cases hstep
        · rw [if_neg hv] at hstep
          cases hstep
          dsimp only at hrun
          exact ih _ _ _ (by simp [List.nodup_append, h, hv]) hrun

/-- With every next-page URL drawn from a finite universe, fuel one larger
than the universe suffices for the loop to stop on its own. -/
theorem scrapeVisit_terminates (nextHref : String → Option String) (baseUrl : String)
    (urls : List String) (hU : ∀ x u, nextHref x = some u → u ∈ urls) :
    ∀ fuel current visited, visited.Nodup → visited ⊆ baseUrl :: urls →
      urls.length + 2 ≤ fuel + visited.length →
      scrapeVisit nextHref fuel current visited ≠ none := by
  intro fuel
  induction fuel with
  | zero =>
    intro current visited hnd hsub hlen
    exfalso
    have hle : visited.length ≤ (baseUrl :: urls).length := nodup_subset_length_le hnd hsub
    simp only [List.length_cons] at hle
    omega
  | succ fuel ih =>
    intro current visited hnd hsub hlen
    simp only [scrapeVisit]
    cases hstep : scrapeStep nextHref current visited with
    | none => simp
    | some p =>
      obtain ⟨u, visited2⟩ := p
      unfold scrapeStep at hstep
      cases hnx : nextHref current with
      | none => rw [hnx] at hstep; cases hstep
      | some v =>
        rw [hnx] at hstep
        dsimp only at hstep
        by_cases hv : v ∈ visited
        · rw [if_pos hv] at hstep; cases hstep
        · rw [if_neg hv] at hstep
          cases hstep
          dsimp only
          apply ih
          · simp [List.nodup_append, hnd, hv]
          · intro y hy
            rcases List.mem_append.mp hy with hy | hy
            · exact hsub hy
            · simp only [List.mem_singleton] at hy
              subst hy
              exact List.mem_cons_of_mem _ (hU _ _ hnx)
          · simp only [List.length_append, List.length_singleton]
            omega

/-- C7: the pagination loop adds each next-page URL to the visited set
before navigating and stops on a repeat or a missing link, so the sequence
of navigated URLs (the visited list) never repeats a URL, and whenever the
next-page URLs of all pages lie in a finite list the loop stops by itself —
fuel one larger than that list is never exhausted. -/
theorem scrape_no_revisit_terminates
    (nextHref : String → Option String) (baseUrl : String) (urls : List String)
    (hU : ∀ x u, nextHref x = some u → u ∈ urls) :
    scrapeDependents nextHref baseUrl (urls.length + 1) ≠ none
    ∧ ∀ fuel visited, scrapeDependents nextHref baseUrl fuel = some visited →
        visited.Nodup := by
  constructor
  · unfold scrapeDependents
    apply scrapeVisit_terminates nextHref baseUrl urls hU
    · simp
    · intro y hy
      simp only [List.mem_singleton] at hy
      subst hy
      exact List.mem_cons_self _ _
    · simp only [List.length_singleton]
      omega
  · intro fuel visited h
    exact scrapeVisit_nodup nextHref fuel baseUrl [baseUrl] visited (by simp) h

/-- Witness for C7: a two-page site whose second page has no next link. -/
theorem scrape_no_revisit_terminates_witness :
    (∀ x u, (if x == "page1" then some "page2" else none) = some u → u ∈ ["page2"])
    ∧ (scrapeDependents (fun x => if x == "page1" then some "page2" else none) "page1"
          (["page2"].length + 1) ≠ none
        ∧ ∀ fuel visited,
            scrapeDependents (fun x => if x == "page1" then some "page2" else none) "page1"
                fuel = some visited →
              visited.Nodup) := by
  have hU : ∀ x u, (if x == "page1" then some "page2" else none) = some u → u ∈ ["page2"] := by
    intro x u h
    by_cases hx : x == "page1"
    · rw [if_pos hx] at h
      cases h
      simp
    · rw [if_neg hx] at h
      cases h
  exact ⟨hU, scrape_no_revisit_terminates _ "page1" ["page2"] hU⟩

/-! ## Parameterized SQL in the list route (C3) -/

/-- C3 counterexample: the SQL text of the list query is not the same for
any two requests that differ only in the search value — an empty search
term omits the WHERE clause, so the texts for search = "" and search = "a"
differ even though everything else agrees. -/
theorem repositoriesQuery_text_empty_vs_nonempty :
    (buildRepositoriesQuery 1 30 "id" "desc" "").text
      ≠ (buildRepositoriesQuery 1 30 "id" "desc" "a").text := by
  decide

/-- C3 amended: the search string, limit and offset only ever reach the
database as bound parameters — the SQL text agrees for any two requests
that differ only in those values and agree on whether the search term is
empty — and the interpolated sort column is always drawn from the fixed
allowlist (any other sortBy falls back to id, any sortOrder not lowering to
asc falls back to DESC). -/
theorem repositoriesQuery_parameterized
    (page1 limit1 page2 limit2 : Int) (sortBy sortOrder search1 search2 : String)
    (h : (search1 == "") = (search2 == "")) :
    (buildRepositoriesQuery page1 limit1 sortBy sortOrder search1).text
        = (buildRepositoriesQuery page2 limit2 sortBy sortOrder search2).text
    ∧ validSortBy sortBy ∈ allowedSortFields
    ∧ (sortBy ∉ allowedSortFields → validSortBy sortBy = "id")
    ∧ (validSortOrder sortOrder = "ASC" ∨ validSortOrder sortOrder = "DESC")
    ∧ (lowerStr sortOrder ≠ "asc" → validSortOrder sortOrder = "DESC")
    ∧ (search1 ≠ "" →
        (buildRepositoriesQuery page1 limit1 sortBy sortOrder search1).params
          = [SqlValue.str ("%" ++ search1 ++ "%"), SqlValue.int limit1,
             SqlValue.int ((page1 - 1) * limit1)])
    ∧ (search1 = "" →
        (buildRepositoriesQuery page1 limit1 sortBy sortOrder search1).params
          = [SqlValue.int limit1, SqlValue.int ((page1 - 1) * limit1)]) := by
  refine ⟨?_, ?_, ?_, ?_, ?_, ?_, ?_⟩
  · by_cases h1 : search1 = ""
    · have h2 : search2 = "" := by
        simp [h1] at h
        exact h
      simp [buildRepositoriesQuery, h1, h2]
    · have h2 : ¬ search2 = "" := by
        intro hc
        simp [h1, hc] at h
      simp [buildRepositoriesQuery, h1, h2]
  · unfold validSortBy
    split
    · rename_i hc
      exact List.mem_of_elem_eq_true hc
    · decide
  · intro hmem
    unfold validSortBy
    split
    · rename_i hc
      exact absurd (List.mem_of_elem_eq_true hc) hmem
    · rfl
  · unfold validSortOrder
    split
    · exact Or.inl rfl
    · exact Or.inr rfl
  · intro hne
    unfold validSortOrder
    rw [if_neg]
    simpa using hne
  · intro h1
    simp [buildRepositoriesQuery, h1]
  · intro h1
    simp [buildRepositoriesQuery, h1]

/-- Witness for C3's amended statement: two requests with different pages,
limits and (both non-empty) search terms. -/
theorem repositoriesQuery_parameterized_witness :
    (("se" == "") = ("eth" == ""))
    ∧ ((buildRepositoriesQuery 2 10 "stars" "ASC" "se").text
          = (buildRepositoriesQuery 3 7 "stars" "ASC" "eth").text
        ∧ validSortBy "stars" ∈ allowedSortFields
        ∧ ("stars" ∉ allowedSortFields → validSortBy "stars" = "id")
        ∧ (validSortOrder "ASC" = "ASC" ∨ validSortOrder "ASC" = "DESC")
        ∧ (lowerStr "ASC" ≠ "asc" → validSortOrder "ASC" = "DESC")
        ∧ ("se" ≠ "" →
            (buildRepositoriesQuery 2 10 "stars" "ASC" "se").params
              = [SqlValue.str ("%" ++ "se" ++ "%"), SqlValue.int 10,
                 SqlValue.int ((2 - 1) * 10)])
        ∧ ("se" = "" →
            (buildRepositoriesQuery 2 10 "stars" "ASC" "se").params
              = [SqlValue.int 10, SqlValue.int ((2 - 1) * 10)])) :=
  ⟨by decide, repositoriesQuery_parameterized 2 10 3 7 "stars" "ASC" "se" "eth" (by decide)⟩

/-! ## List endpoint: search semantics and pagination (C4) -/

/-- Matching a pattern starting with percent succeeds exactly when the rest
of the pattern matches some suffix of the subject. -/
theorem likeMatchT_percent_iff (p : List LikeTok) (s : List Char) :
    likeMatchT (LikeTok.percent :: p) s = true ↔ ∃ t, t <:+ s ∧ likeMatchT p t = true := by
  have heq : likeMatchT (LikeTok.percent :: p) s = s.tails.any (fun t => likeMatchT p t) := rfl
  rw [heq, List.any_eq_true]
  constructor
  · rintro ⟨t, ht, hm⟩
    exact ⟨t, (List.mem_tails t s).mp ht, hm⟩
  · rintro ⟨t, ht, hm⟩
    exact ⟨t, (List.mem_tails t s).mpr ht, hm⟩

/-- The trailing percent of the ILIKE pattern matches any remainder. -/
theorem likeMatchT_percent_all (s : List Char) : likeMatchT [LikeTok.percent] s = true := by
  rw [likeMatchT_percent_iff]
  exact ⟨[], List.nil_suffix, rfl⟩

/-- Decomposition of cleanChars over a cons. -/
theorem cleanChars_cons {a : Char} {p : List Char} (h : cleanChars (a :: p) = true) :
    (¬ a = '%' ∧ ¬ a = '_' ∧ ¬ a = '\\') ∧ cleanChars p = true := by
  unfold cleanChars at h ⊢
  rw [List.all_cons, Bool.and_eq_true] at h
  obtain ⟨ha, hp⟩ := h
  refine ⟨?_, hp⟩
  simp only [Bool.not_eq_eq_eq_not, Bool.not_true, Bool.or_eq_false_iff,
    beq_eq_false_iff_ne, ne_eq] at ha
  exact ⟨ha.1.1, ha.1.2, ha.2⟩

/-- A sequence of literal tokens followed by a single percent matches
exactly the subjects the literal sequence is a prefix of. -/
theorem likeMatchT_lit_append_percent :
    ∀ p : List Char, ∀ t,
      likeMatchT (p.map LikeTok.lit ++ [LikeTok.percent]) t = true ↔ p <+: t := by
  intro p
  induction p with
  | nil =>
    intro t
    simp [likeMatchT_percent_all t, List.nil_prefix]
  | cons a p ih =>
    intro t
    cases t with
    | nil =>
      have h0 : likeMatchT (LikeTok.lit a :: (List.map LikeTok.lit p ++ [LikeTok.percent])) []
          = false := rfl
      simp only [List.map_cons, List.cons_append]
      rw [h0]
      simp
    | cons d t2 =>
      have h1 : likeMatchT (LikeTok.lit a :: (List.map LikeTok.lit p ++ [LikeTok.percent]))
          (d :: t2)
          = (a == d && likeMatchT (List.map LikeTok.lit p ++ [LikeTok.percent]) t2) := rfl
      simp only [List.map_cons, List.cons_append]
      rw [h1, Bool.and_eq_true, beq_iff_eq, ih t2, List.cons_prefix_cons]

/-- Tokenizing a wildcard-free term followed by a percent yields the
literal tokens followed by the percent token. -/
theorem likeTokens_clean_append_percent :
    ∀ p : List Char, cleanChars p = true →
      likeTokens false (p ++ ['%']) = p.map LikeTok.lit ++ [LikeTok.percent] := by
  intro p
  induction p with
  | nil => intro _; rfl
  | cons a p ih =>
    intro hp
    obtain ⟨⟨ha1, ha2, ha3⟩, hp2⟩ := cleanChars_cons hp
    have h1 : likeTokens false ((a :: p) ++ ['%'])
        = (if a = '%' then LikeTok.percent :: likeTokens false (p ++ ['%'])
           else if a = '_' then LikeTok.underscore :: likeTokens false (p ++ ['%'])
           else if a = '\\' then likeTokens true (p ++ ['%'])
           else LikeTok.lit a :: likeTokens false (p ++ ['%'])) := rfl
    rw [h1, if_neg ha1, if_neg ha2, if_neg ha3, ih hp2]
    simp

/-- The full ILIKE pattern percent-term-percent with a wildcard-free term
matches exactly the subjects containing the term as a contiguous
subsequence. -/
theorem likeMatch_substring (p s : List Char) (hp : cleanChars p = true) :
    likeMatch ('%' :: (p ++ ['%'])) s = true ↔ p <:+: s := by
  unfold likeMatch
  have htok : likeTokens false ('%' :: (p ++ ['%']))
      = LikeTok.percent :: (p.map LikeTok.lit ++ [LikeTok.percent]) := by
    have h1 : likeTokens false ('%' :: (p ++ ['%']))
        = LikeTok.percent :: likeTokens false (p ++ ['%']) := rfl
    rw [h1, likeTokens_clean_append_percent p hp]
  rw [htok, likeMatchT_percent_iff]
  constructor
  · rintro ⟨t, hts, hm⟩
    rw [likeMatchT_lit_append_percent p t] at hm
    exact List.infix_iff_prefix_suffix.mpr ⟨t, hm, hts⟩
  · intro h
    obtain ⟨t, hpt, hts⟩ := List.infix_iff_prefix_suffix.mp h
    exact ⟨t, hts, (likeMatchT_lit_append_percent p t).mpr hpt⟩

/-- For a wildcard-free search term the ILIKE test is the case-insensitive
substring test. -/
theorem likeMatch_eq_decide_substring (search : String) (hclean : cleanSearch search = true)
    (f : List Char) :
    likeMatch (ilikePattern search) f = decide (lowerChars search <:+: f) := by
  unfold ilikePattern
  by_cases hinf : lowerChars search <:+: f
  · rw [(likeMatch_substring _ f hclean).mpr hinf, decide_eq_true hinf]
  · have hne : ¬ likeMatch ('%' :: (lowerChars search ++ ['%'])) f = true :=
      fun hm => hinf ((likeMatch_substring _ f hclean).mp hm)
    rw [decide_eq_false hinf]
    exact Bool.eq_false_iff.mpr hne

/-- For wildcard-free search terms the route's WHERE condition agrees with
the specification's matching predicate on every row. -/
theorem matchesSearch_eq_spec (search : String) (hclean : cleanSearch search = true)
    (r : Repository) :
    matchesSearch search r = searchSpecMatches search r := by
  unfold matchesSearch searchSpecMatches
  rw [likeMatch_eq_decide_substring search hclean, likeMatch_eq_decide_substring search hclean,
    likeMatch_eq_decide_substring search hclean]
  by_cases hs : search = ""
  · subst hs
    simp only [show lowerChars "" = [] from rfl]
    simp [List.nil_infix]
  · have hb : (search == "") = false := by
      simpa using hs
    rw [hb]
    simp

/-- The branch the route takes on the search term equals the filter by the
specification's predicate. -/
theorem listGET_filter_eq (tbl : List Repository) (search : String)
    (hclean : cleanSearch search = true) :
    (if search == "" then tbl else tbl.filter (matchesSearch search))
      = tbl.filter (searchSpecMatches search) := by
  by_cases hs : search = ""
  · rw [if_pos (by simpa using hs)]
    exact (List.filter_eq_self.mpr (fun a _ => by simp [searchSpecMatches, hs])).symm
  · rw [if_neg (by simpa using hs)]
    exact List.filter_congr (fun r _ => matchesSearch_eq_spec search hclean r)

/-- C4 amended: for positive page and limit and a search term free of LIKE
wildcard characters, the list endpoint returns the slice of length at most
limit starting at offset (page-1)*limit of some ordering of exactly the
rows matching the term case-insensitively in full_name, name or owner (all
rows for the empty term), reports totalCount as the number of matching rows
and totalPages as the ceiling of totalCount/limit, and sets
hasNext = (page < totalPages) and hasPrev = (page > 1).  For terms
containing %, _ or a backslash the ILIKE pattern semantics applies instead
(see the counterexample). -/
theorem listGET_pagination
    (tbl : List Repository) (orderLe : Repository → Repository → Bool)
    (page limit : Nat) (sortBy sortOrder search : String)
    (_hpage : 1 ≤ page) (hlimit : 1 ≤ limit) (hclean : cleanSearch search = true) :
    (listGET tbl orderLe page limit sortBy sortOrder search).repositories.length ≤ limit
    ∧ (listGET tbl orderLe page limit sortBy sortOrder search).repositories
        = (((tbl.filter (searchSpecMatches search)).mergeSort orderLe).drop
            ((page - 1) * limit)).take limit
    ∧ ((tbl.filter (searchSpecMatches search)).mergeSort orderLe).Perm
        (tbl.filter (searchSpecMatches search))
    ∧ (search = "" → tbl.filter (searchSpecMatches search) = tbl)
    ∧ (listGET tbl orderLe page limit sortBy sortOrder search).pagination.totalCount
        = (tbl.filter (searchSpecMatches search)).length
    ∧ (listGET tbl orderLe page limit sortBy sortOrder search).pagination.totalPages
        = ((tbl.filter (searchSpecMatches search)).length + limit - 1) / limit
    ∧ (tbl.filter (searchSpecMatches search)).length
        ≤ (listGET tbl orderLe page limit sortBy sortOrder search).pagination.totalPages * limit
    ∧ (listGET tbl orderLe page limit sortBy sortOrder search).pagination.totalPages * limit
        < (tbl.filter (searchSpecMatches search)).length + limit
    ∧ (listGET tbl orderLe page limit sortBy sortOrder search).pagination.hasNext
        = decide (page <
            (listGET tbl orderLe page limit sortBy sortOrder search).pagination.totalPages)
    ∧ (listGET tbl orderLe page limit sortBy sortOrder search).pagination.hasPrev
        = decide (1 < page) := by
  have hfil := listGET_filter_eq tbl search hclean
  have hlim : 0 < limit := hlimit
  have hrepos : (listGET tbl orderLe page limit sortBy sortOrder search).repositories
      = (((tbl.filter (searchSpecMatches search)).mergeSort orderLe).drop
          ((page - 1) * limit)).take limit := by
    simp only [listGET]
    rw [hfil]
  have htc : (listGET tbl orderLe page limit sortBy sortOrder search).pagination.totalCount
      = (tbl.filter (searchSpecMatches search)).length := by
    simp only [listGET]
    rw [hfil]
  have htp : (listGET tbl orderLe page limit sortBy sortOrder search).pagination.totalPages
      = ((tbl.filter (searchSpecMatches search)).length + limit - 1) / limit := by
    simp only [listGET]
    rw [hfil]
  refine ⟨?_, hrepos, List.mergeSort_perm _ _, ?_, htc, htp, ?_, ?_, ?_, ?_⟩
  · rw [hrepos]
    exact List.length_take_le _ _
  · intro hs
    exact List.filter_eq_self.mpr (fun a _ => by simp [searchSpecMatches, hs])
  · rw [htp]
    have h1 : (tbl.filter (searchSpecMatches search)).length
        ≤ limit * ((tbl.filter (searchSpecMatches search)).length ⌈/⌉ limit) :=
      le_smul_ceilDiv hlim
    rw [Nat.ceilDiv_eq_add_pred_div] at h1
    rw [Nat.mul_comm]
    exact h1
  · rw [htp]
    exact lt_of_le_of_lt (Nat.div_mul_le_self _ _) (Nat.sub_lt (by omega) (by omega))
  · simp only [listGET]
  · simp only [listGET]

/-- C4 counterexample: the endpoint does not implement plain substring
search — a search term containing the LIKE wildcard percent matches rows
the claim says it must not.  For the table holding only a row named axb and
the term a%b, the endpoint reports one matching row while the substring
reading of the claim counts zero. -/
theorem listGET_wildcard_counterexample :
    (listGET [wildcardRow] (fun _ _ => true) 1 30 "id" "desc" "a%b").pagination.totalCount = 1
      ∧ ([wildcardRow].filter (searchSpecMatches "a%b")).length = 0 := by
  decide

/-- Witness for C4's amended statement at a concrete table and request. -/
theorem listGET_pagination_witness :
    (1 ≤ 1 ∧ 1 ≤ 2 ∧ cleanSearch "se" = true)
    ∧ ((listGET [sampleRow] (fun a b => a.id ≤ b.id) 1 2 "id" "desc" "se").repositories.length
          ≤ 2
        ∧ (listGET [sampleRow] (fun a b => a.id ≤ b.id) 1 2 "id" "desc" "se").repositories
            = ((([sampleRow].filter (searchSpecMatches "se")).mergeSort
                (fun a b => a.id ≤ b.id)).drop ((1 - 1) * 2)).take 2
        ∧ (([sampleRow].filter (searchSpecMatches "se")).mergeSort
            (fun a b => a.id ≤ b.id)).Perm ([sampleRow].filter (searchSpecMatches "se"))
        ∧ ("se" = "" → [sampleRow].filter (searchSpecMatches "se") = [sampleRow])
        ∧ (listGET [sampleRow] (fun a b => a.id ≤ b.id) 1 2 "id" "desc"
            "se").pagination.totalCount
            = ([sampleRow].filter (searchSpecMatches "se")).length
        ∧ (listGET [sampleRow] (fun a b => a.id ≤ b.id) 1 2 "id" "desc"
            "se").pagination.totalPages
            = (([sampleRow].filter (searchSpecMatches "se")).length + 2 - 1) / 2
        ∧ ([sampleRow].filter (searchSpecMatches "se")).length
            ≤ (listGET [sampleRow] (fun a b => a.id ≤ b.id) 1 2 "id" "desc"
                "se").pagination.totalPages * 2
        ∧ (listGET [sampleRow] (fun a b => a.id ≤ b.id) 1 2 "id" "desc"
            "se").pagination.totalPages * 2
            < ([sampleRow].filter (searchSpecMatches "se")).length + 2
        ∧ (listGET [sampleRow] (fun a b => a.id ≤ b.id) 1 2 "id" "desc"
            "se").pagination.hasNext
            = decide (1 < (listGET [sampleRow] (fun a b => a.id ≤ b.id) 1 2 "id" "desc"
                "se").pagination.totalPages)
        ∧ (listGET [sampleRow] (fun a b => a.id ≤ b.id) 1 2 "id" "desc"
            "se").pagination.hasPrev
            = decide (1 < 1)) :=
  ⟨⟨by decide, by decide, by decide⟩,
    listGET_pagination [sampleRow] (fun a b => a.id ≤ b.id) 1 2 "id" "desc" "se"
      (by decide) (by decide) (by decide)⟩

/-! ## CSV export endpoint (C8) -/

/-- C8: on a successful query the export endpoint returns 200 with
text/csv content whose body is the fixed header line followed by exactly
one line per table row (joined with newlines), the rows being a
permutation of the table sorted in ascending id order and each line built
by csvLine from its row; when the database query fails it returns 500. -/
theorem exportGET_csv (tbl : List Repository) (errDetails : String) :
    (exportGET (Except.ok tbl)).status = 200
    ∧ (exportGET (Except.ok tbl)).contentType = "text/csv"
    ∧ (exportGET (Except.ok tbl)).body
        = String.intercalate "\n"
            (String.intercalate "," exportHeaders :: (sortById tbl).map csvLine)
    ∧ (String.intercalate "," exportHeaders :: (sortById tbl).map csvLine).length
        = tbl.length + 1
    ∧ (sortById tbl).Perm tbl
    ∧ (sortById tbl).Pairwise (fun a b => a.id ≤ b.id)
    ∧ (exportGET (Except.error errDetails)).status = 500 := by
  refine ⟨rfl, rfl, rfl, ?_, List.mergeSort_perm tbl _, ?_, rfl⟩
  · simp only [List.length_cons, List.length_map]
    exact congrArg (· + 1) ((List.mergeSort_perm tbl _).length_eq)
  · have h := @List.sorted_mergeSort Repository
      (fun a b : Repository => decide (a.id ≤ b.id))
      (fun a b c hab hbc => by
        simp only [decide_eq_true_eq] at hab hbc ⊢
        omega)
      (fun a b => by
        simp only [Bool.or_eq_true, decide_eq_true_eq]
        omega)
      tbl
    exact h.imp (fun hab => by simpa using hab)
